import Mathlib

/-!
Verification development for the natural-language calendar assistant
(`utils.py` / `utils_emot.py`).  The Python sources are shallowly embedded:
pure string functions become Lean functions on `String` / `List Char`,
datetimes become integer minute/day counts or civil `(year, month, day)`
records, fallible code returns `Except PyErr`, and the two external
library calls that the claims never constrain (difflib ratio,
`datetime.strptime` for the matcher time-window formats, `json.loads`)
are universally quantified oracles.
-/

/-- Error kinds raised by the Python code: the typed calendar errors plus the
builtin exceptions that matter for control flow (`ValueError`, `TypeError`,
`KeyError`, `json.JSONDecodeError`, and a generic wrapped `Exception`). -/
inductive PyErr where
  | invalidInput (msg : String)
  | eventNotFound (msg : String)
  | valueError
  | typeError
  | keyError
  | jsonDecodeError
  | genericError
  deriving DecidableEq, Repr

instance {ε α : Type} [DecidableEq ε] [DecidableEq α] : DecidableEq (Except ε α) := fun a b =>
  match a, b with
  | .ok x, .ok y => decidable_of_iff (x = y) (by simp)
  | .error x, .error y => decidable_of_iff (x = y) (by simp)
  | .ok _, .error _ => isFalse (by simp)
  | .error _, .ok _ => isFalse (by simp)

/-- ASCII decimal digit test, modelling the regex class backslash-d. -/
def isDigitChar (c : Char) : Bool := '0' ≤ c && c ≤ '9'

/-- Numeric value of a decimal digit character. -/
def digitVal (c : Char) : Nat := c.toNat - 48

/-- Whitespace as matched by Python `str.strip` and the regex class
backslash-s (space, tab, newline, carriage return, vertical tab, form feed). -/
def isSpaceChar (c : Char) : Bool :=
  c = ' ' || c = '\t' || c = '\n' || c = '\r' || c = '\x0b' || c = '\x0c'

/-- Python `str.strip`: drop whitespace from both ends. -/
def pyStrip (cs : List Char) : List Char :=
  ((cs.dropWhile isSpaceChar).reverse.dropWhile isSpaceChar).reverse

/-- ASCII uppercasing of one character (Python `str.upper` restricted to the
ASCII alphabet the code manipulates). -/
def pyUpperChar (c : Char) : Char :=
  if 'a' ≤ c && c ≤ 'z' then Char.ofNat (c.toNat - 32) else c

/-- ASCII lowercasing of one character (Python `str.lower`). -/
def pyLowerChar (c : Char) : Char :=
  if 'A' ≤ c && c ≤ 'Z' then Char.ofNat (c.toNat + 32) else c

/-- Python `str.lower` on a whole string. -/
def pyLower (s : String) : String := String.mk (s.toList.map pyLowerChar)

/-- Python `str.strip` on a whole string. -/
def pyStripS (s : String) : String := String.mk (pyStrip s.toList)

/-- Decimal digit character (digits the embedded formatters emit). -/
def digitChar : Nat → Char
  | 0 => '0' | 1 => '1' | 2 => '2' | 3 => '3' | 4 => '4'
  | 5 => '5' | 6 => '6' | 7 => '7' | 8 => '8' | _ => '9'

/-- Two-digit zero-padded rendering, Python format `{:02d}` for values
below 100. -/
def twoDigitChars (n : Nat) : List Char := [digitChar (n / 10), digitChar (n % 10)]

/-- The AM/PM period marker of the canonical 12-hour time format. -/
inductive Period where
  | am
  | pm
  deriving DecidableEq, Repr

/-- Characters of the period marker. -/
def Period.chars : Period → List Char
  | .am => ['A', 'M']
  | .pm => ['P', 'M']

/-- The canonical output shape of `standardize_time_format`:
the Python f-string `"{hour:02d}:{minute:02d} {period}"`. -/
def fmtTime (h m : Nat) (p : Period) : String :=
  String.mk (twoDigitChars h ++ ':' :: twoDigitChars m ++ ' ' :: p.chars)

/-- The 24-hour regex of `standardize_time_format`:
anchored `(d{1,2}):?(d{2})` over the whole string, with the greedy
backtracking of the Python `re` module resolved case by case on the
input length.  Returns (hour, minute) on a match. -/
def match24 : List Char → Option (Nat × Nat)
  | [a, b, c] =>
      if isDigitChar a && isDigitChar b && isDigitChar c then
        some (digitVal a, 10 * digitVal b + digitVal c)
      else none
  | [a, b, c, d] =>
      if isDigitChar a && b = ':' && isDigitChar c && isDigitChar d then
        some (digitVal a, 10 * digitVal c + digitVal d)
      else if isDigitChar a && isDigitChar b && isDigitChar c && isDigitChar d then
        some (10 * digitVal a + digitVal b, 10 * digitVal c + digitVal d)
      else none
  | [a, b, c, d, e] =>
      if isDigitChar a && isDigitChar b && c = ':' && isDigitChar d && isDigitChar e then
        some (10 * digitVal a + digitVal b, 10 * digitVal d + digitVal e)
      else none
  | _ => none

/-- The optional trailing period of the 12-hour regex: `(AM|PM|A|P)?`
anchored at the end of the string, with the single-letter forms already
normalised to a `Period` as the Python code does right after matching. -/
def parsePeriodTail : List Char → Option (Option Period)
  | [] => some none
  | ['A'] => some (some .am)
  | ['P'] => some (some .pm)
  | ['A', 'M'] => some (some .am)
  | ['P', 'M'] => some (some .pm)
  | _ => none

/-- Remainder of the 12-hour regex after the hour group:
`(?::(d{2}))? s* (AM|PM|A|P)? $`.  Returns (minute, period). -/
def parseAfterHour : List Char → Option (Nat × Option Period)
  | [] => some (0, none)
  | ':' :: m1 :: m2 :: rest =>
      if isDigitChar m1 && isDigitChar m2 then
        match parsePeriodTail (rest.dropWhile isSpaceChar) with
        | some p => some (10 * digitVal m1 + digitVal m2, p)
        | none => none
      else none
  | ':' :: _ => none
  | cs =>
      match parsePeriodTail (cs.dropWhile isSpaceChar) with
      | some p => some (0, p)
      | none => none

/-- The 12-hour regex of `standardize_time_format`:
anchored `(d{1,2})(?::(d{2}))? s*(AM|PM|A|P)?`, greedy on the hour with
backtracking to a one-digit hour when the two-digit parse of the rest
fails.  Returns (hour, minute, period). -/
def match12 : List Char → Option (Nat × Nat × Option Period)
  | [] => none
  | a :: rest =>
      if isDigitChar a then
        match rest with
        | b :: rest2 =>
            if isDigitChar b then
              match parseAfterHour rest2 with
              | some (m, p) => some (10 * digitVal a + digitVal b, m, p)
              | none =>
                  match parseAfterHour rest with
                  | some (m, p) => some (digitVal a, m, p)
                  | none => none
            else
              match parseAfterHour rest with
              | some (m, p) => some (digitVal a, m, p)
              | none => none
        | [] => some (digitVal a, 0, none)
      else none

/-- `standardize_time_format` (identical in `utils.py` lines 124-167 and
`utils_emot.py` lines 123-166): strip and uppercase the input, try the
24-hour pattern and convert to 12-hour form, otherwise try the 12-hour
pattern with the period defaulting to PM, raising `InvalidInputError`
on out-of-range values or no match. -/
def standardize_time_format (s : String) : Except PyErr String :=
  let cs := (pyStrip s.toList).map pyUpperChar
  match match24 cs with
  | some (h, m) =>
      if 24 ≤ h ∨ 60 ≤ m then
        .error (.invalidInput ("Invalid time: " ++ String.mk cs))
      else
        let period := if h < 12 then Period.am else Period.pm
        let h12 := h % 12
        let h12 := if h12 = 0 then 12 else h12
        .ok (fmtTime h12 m period)
  | none =>
      match match12 cs with
      | some (h, m, p) =>
          let period := p.getD Period.pm
          if 12 < h ∨ 60 ≤ m then
            .error (.invalidInput ("Invalid time: " ++ String.mk cs))
          else
            let h := if h = 0 then 12 else h
            .ok (fmtTime h m period)
      | none => .error (.invalidInput ("Could not parse time: " ++ String.mk cs))

/-- `standardize_day_format` (identical in both files): uppercase the input
and look it up in the alias table, raising `InvalidInputError` otherwise. -/
def standardize_day_format (s : String) : Except PyErr String :=
  let u := String.mk (s.toList.map pyUpperChar)
  let lookup : Option String :=
    if u = "MONDAY" then some "MON" else if u = "TUESDAY" then some "TUE"
    else if u = "WEDNESDAY" then some "WED" else if u = "THURSDAY" then some "THU"
    else if u = "FRIDAY" then some "FRI" else if u = "SATURDAY" then some "SAT"
    else if u = "SUNDAY" then some "SUN"
    else if u = "MON" then some "MON" else if u = "TUE" then some "TUE"
    else if u = "WED" then some "WED" else if u = "THU" then some "THU"
    else if u = "FRI" then some "FRI" else if u = "SAT" then some "SAT"
    else if u = "SUN" then some "SUN"
    else if u = "M" then some "MON" else if u = "T" then some "TUE"
    else if u = "W" then some "WED" else if u = "TH" then some "THU"
    else if u = "F" then some "FRI" else if u = "SA" then some "SAT"
    else if u = "SU" then some "SUN"
    else none
  match lookup with
  | some d => .ok d
  | none => .error (.invalidInput ("Invalid day: " ++ s))

/-- Gregorian leap-year test. -/
def isLeapYear (y : Nat) : Bool := (y % 4 = 0 && y % 100 ≠ 0) || y % 400 = 0

/-- Length of a month, as validated by `datetime.strptime`. -/
def daysInMonth (y m : Nat) : Nat :=
  if m = 2 then (if isLeapYear y then 29 else 28)
  else if m = 4 ∨ m = 6 ∨ m = 9 ∨ m = 11 then 30
  else 31

/-- Day count of a civil date since 1970-01-01 (standard civil-from-days
arithmetic); the integer timeline on which the embedding compares dates and
computes weekdays. -/
def daysFromCivil (y m d : Nat) : Int :=
  let y' := if m ≤ 2 then y - 1 else y
  let era := y' / 400
  let yoe := y' - era * 400
  let mp := if 2 < m then m - 3 else m + 9
  let doy := (153 * mp + 2) / 5 + d - 1
  let doe := yoe * 365 + yoe / 4 + doy - yoe / 100
  (era * 146097 + doe : Nat) - (719468 : Int)

/-- Civil date of a day count since 1970-01-01 (inverse of `daysFromCivil`
on the valid range). -/
def civilFromDays (z : Int) : Nat × Nat × Nat :=
  let z' := z + 719468
  let era := z'.fdiv 146097
  let doe := (z' - era * 146097).toNat
  let yoe := (doe - doe / 1460 + doe / 36524 - doe / 146096) / 365
  let doy := doe - (365 * yoe + yoe / 4 - yoe / 100)
  let mp := (5 * doy + 2) / 153
  let d := doy - (153 * mp + 2) / 5 + 1
  let m := if mp < 10 then mp + 3 else mp - 9
  let y := ((yoe : Int) + era * 400 + (if m ≤ 2 then 1 else 0)).toNat
  (y, m, d)

/-- Python `datetime.weekday` of a day count (0 = Monday .. 6 = Sunday);
1970-01-01 (day 0) was a Thursday. -/
def weekdayOf (z : Int) : Int := (z + 3) % 7

/-- Four-digit zero-padded rendering, Python format `{:04d}` for years. -/
def fourDigitChars (n : Nat) : List Char :=
  [digitChar (n / 1000 % 10), digitChar (n / 100 % 10), digitChar (n / 10 % 10),
   digitChar (n % 10)]

/-- The canonical date output `strftime("%Y-%m-%d")`. -/
def fmtDate (y m d : Nat) : String :=
  String.mk (fourDigitChars y ++ '-' :: twoDigitChars m ++ '-' :: twoDigitChars d)

/-- Split a character list at every occurrence of a separator character
(Python `str.split(sep)` for a one-character separator). -/
def splitOnCharList (sep : Char) : List Char → List (List Char)
  | [] => [[]]
  | c :: rest =>
      let r := splitOnCharList sep rest
      if c = sep then [] :: r
      else
        match r with
        | h :: t => (c :: h) :: t
        | [] => [[c]]

/-- One-or-two-digit numeric field of `strptime` (`%m`, `%d`). -/
def isNumField2 (s : List Char) : Bool :=
  (s.length = 1 ∨ s.length = 2) && s.all isDigitChar

/-- Four-digit numeric field of `strptime` (`%Y`). -/
def isNumField4 (s : List Char) : Bool := s.length = 4 && s.all isDigitChar

/-- Numeric value of a digit string. -/
def natOfDigits (s : List Char) : Nat :=
  s.foldl (fun a c => 10 * a + digitVal c) 0

/-- Month number of a full month name (`strptime` `%B`, case-insensitive). -/
def fullMonthNumber (s : String) : Option Nat :=
  let t := pyLower s
  if t = "january" then some 1 else if t = "february" then some 2
  else if t = "march" then some 3 else if t = "april" then some 4
  else if t = "may" then some 5 else if t = "june" then some 6
  else if t = "july" then some 7 else if t = "august" then some 8
  else if t = "september" then some 9 else if t = "october" then some 10
  else if t = "november" then some 11 else if t = "december" then some 12
  else none

/-- Month number of an abbreviated month name (`strptime` `%b`,
case-insensitive). -/
def abbrMonthNumber (s : String) : Option Nat :=
  let t := pyLower s
  if t = "jan" then some 1 else if t = "feb" then some 2
  else if t = "mar" then some 3 else if t = "apr" then some 4
  else if t = "may" then some 5 else if t = "jun" then some 6
  else if t = "jul" then some 7 else if t = "aug" then some 8
  else if t = "sep" then some 9 else if t = "oct" then some 10
  else if t = "nov" then some 11 else if t = "dec" then some 12
  else none

/-- Result of one `strptime` attempt in `standardize_date_format`:
the parsed civil fields, and whether the format carried a `%Y` year
(a yearless format leaves `strptime`'s default year 1900). -/
structure ParsedDate where
  year : Nat
  month : Nat
  day : Nat
  hasYear : Bool
  deriving DecidableEq, Repr

/-- Range validation shared by all `strptime` attempts: month 1..12, day
1..month length, year 1..9999 (`datetime.MINYEAR`/`MAXYEAR`). -/
def mkParsedDate (y m d : Nat) (hasYear : Bool) : Option ParsedDate :=
  if 1 ≤ y ∧ y ≤ 9999 ∧ 1 ≤ m ∧ m ≤ 12 ∧ 1 ≤ d ∧ d ≤ daysInMonth y m then
    some ⟨y, m, d, hasYear⟩
  else none

/-- `strptime(s, "%Y-%m-%d")`. -/
def tryFormatYMD (s : String) : Option ParsedDate :=
  match splitOnCharList '-' s.toList with
  | [ys, ms, ds] =>
      if isNumField4 ys && isNumField2 ms && isNumField2 ds then
        mkParsedDate (natOfDigits ys) (natOfDigits ms) (natOfDigits ds) true
      else none
  | _ => none

/-- `strptime(s, "%m/%d/%Y")` or `strptime(s, "%m-%d-%Y")`. -/
def tryFormatMDY (sep : Char) (s : String) : Option ParsedDate :=
  match splitOnCharList sep s.toList with
  | [ms, ds, ys] =>
      if isNumField2 ms && isNumField2 ds && isNumField4 ys then
        mkParsedDate (natOfDigits ys) (natOfDigits ms) (natOfDigits ds) true
      else none
  | _ => none

/-- `strptime(s, "%m/%d")` or `strptime(s, "%m-%d")` (year defaults to 1900). -/
def tryFormatMD (sep : Char) (s : String) : Option ParsedDate :=
  match splitOnCharList sep s.toList with
  | [ms, ds] =>
      if isNumField2 ms && isNumField2 ds then
        mkParsedDate 1900 (natOfDigits ms) (natOfDigits ds) false
      else none
  | _ => none

/-- `strptime(s, "%B %d")` / `strptime(s, "%b %d")` (month name first). -/
def tryFormatMonthNameDay (full : Bool) (s : String) : Option ParsedDate :=
  match splitOnCharList ' ' s.toList with
  | [ns, ds] =>
      match (if full then fullMonthNumber (String.mk ns) else abbrMonthNumber (String.mk ns)) with
      | some m => if isNumField2 ds then mkParsedDate 1900 m (natOfDigits ds) false else none
      | none => none
  | _ => none

/-- `strptime(s, "%d %B")` / `strptime(s, "%d %b")` (day first). -/
def tryFormatDayMonthName (full : Bool) (s : String) : Option ParsedDate :=
  match splitOnCharList ' ' s.toList with
  | [ds, ns] =>
      match (if full then fullMonthNumber (String.mk ns) else abbrMonthNumber (String.mk ns)) with
      | some m => if isNumField2 ds then mkParsedDate 1900 m (natOfDigits ds) false else none
      | none => none
  | _ => none

/-- The format list of `standardize_date_format`, attempted in source order. -/
def tryDateFormats (s : String) : Option ParsedDate :=
  (tryFormatYMD s).orElse fun _ =>
  (tryFormatMDY '/' s).orElse fun _ =>
  (tryFormatMDY '-' s).orElse fun _ =>
  (tryFormatMD '/' s).orElse fun _ =>
  (tryFormatMD '-' s).orElse fun _ =>
  (tryFormatMonthNameDay true s).orElse fun _ =>
  (tryFormatMonthNameDay false s).orElse fun _ =>
  (tryFormatDayMonthName true s).orElse fun _ =>
  (tryFormatDayMonthName false s)

/-- A Python `datetime` value as this embedding needs it: civil fields at
minute granularity plus the offset-aware flag.  Comparing an offset-naive
with an offset-aware datetime raises `TypeError` in Python. -/
structure PyDT where
  aware : Bool
  year : Nat
  month : Nat
  day : Nat
  hour : Nat
  minute : Nat
  deriving DecidableEq, Repr

/-- Lexicographic civil comparison of two datetimes (both assumed on the
same awareness side). -/
def civilLt (a b : PyDT) : Bool :=
  a.year < b.year || (a.year = b.year &&
    (a.month < b.month || (a.month = b.month &&
      (a.day < b.day || (a.day = b.day &&
        (a.hour < b.hour || (a.hour = b.hour && a.minute < b.minute)))))))

/-- Python `<` on datetimes: `TypeError` when exactly one side is
offset-aware, lexicographic comparison otherwise. -/
def pyDatetimeLt (a b : PyDT) : Except PyErr Bool :=
  if a.aware ≠ b.aware then .error .typeError else .ok (civilLt a b)

/-- `today + timedelta(days=delta)` followed by `strftime("%Y-%m-%d")`. -/
def shiftDateString (today : PyDT) (delta : Int) : String :=
  let (y, m, d) := civilFromDays (daysFromCivil today.year today.month today.day + delta)
  fmtDate y m d

/-- Prefix match of the `utils.py` relative pattern
`in s+ (d+) s+ (day|week|month)s?` (`re.match`, so trailing text is
ignored); returns the day offset. -/
def matchInPattern (cs : List Char) : Option Int :=
  match cs with
  | 'i' :: 'n' :: rest =>
      let rest1 := rest.dropWhile isSpaceChar
      if rest1.length = rest.length then none
      else
        let digits := rest1.takeWhile isDigitChar
        if digits = [] then none
        else
          let rest2 := rest1.drop digits.length
          let rest3 := rest2.dropWhile isSpaceChar
          if rest3.length = rest2.length then none
          else
            let n : Int := natOfDigits digits
            if rest3.take 3 = ['d', 'a', 'y'] then some n
            else if rest3.take 4 = ['w', 'e', 'e', 'k'] then some (n * 7)
            else if rest3.take 5 = ['m', 'o', 'n', 't', 'h'] then some (n * 30)
            else none
  | _ => none

/-- Step of `matchAgoPattern` after the unit keyword: `s? s+ ago`
(with the backtracking of the optional `s` resolved: if a letter `s`
follows, it must be consumed). -/
def matchAgoTail (cs : List Char) : Bool :=
  let cs1 := match cs with
             | 's' :: t => t
             | t => t
  let cs2 := cs1.dropWhile isSpaceChar
  cs2.length ≠ cs1.length && cs2.take 3 = ['a', 'g', 'o']

/-- Prefix match of the `utils.py` relative pattern
`(d+) s+ (day|week|month)s? s+ ago`; returns the (negative) day offset. -/
def matchAgoPattern (cs : List Char) : Option Int :=
  let digits := cs.takeWhile isDigitChar
  if digits = [] then none
  else
    let rest := cs.drop digits.length
    let rest1 := rest.dropWhile isSpaceChar
    if rest1.length = rest.length then none
    else
      let n : Int := natOfDigits digits
      if rest1.take 3 = ['d', 'a', 'y'] && matchAgoTail (rest1.drop 3) then some (-n)
      else if rest1.take 4 = ['w', 'e', 'e', 'k'] && matchAgoTail (rest1.drop 4) then
        some (-(n * 7))
      else if rest1.take 5 = ['m', 'o', 'n', 't', 'h'] && matchAgoTail (rest1.drop 5) then
        some (-(n * 30))
      else none

/-- The `utils.py` `standardize_date_format` (lines 169-259).  `today` is
`datetime.now(local_tz)`: in the source it is always timezone-aware, so the
yearless branch compares a naive `strptime` result against it with
`parsed_date.replace(year=current_year) < today`, which is Python
`naive < aware`. -/
def standardize_date_format_utils (today : PyDT) (s : String) : Except PyErr String :=
  let t := pyLower (pyStripS s)
  let cs := t.toList
  match matchInPattern cs with
  | some days => .ok (shiftDateString today days)
  | none =>
  match matchAgoPattern cs with
  | some days => .ok (shiftDateString today days)
  | none =>
  let relative : Option Int :=
    if t = "today" then some 0 else if t = "tomorrow" then some 1
    else if t = "yesterday" then some (-1) else if t = "next week" then some 7
    else if t = "last week" then some (-7) else if t = "next month" then some 30
    else if t = "last month" then some (-30) else none
  match relative with
  | some days => .ok (shiftDateString today days)
  | none =>
  match tryDateFormats t with
  | some p =>
      if p.hasYear then .ok (fmtDate p.year p.month p.day)
      else
        let replaced : PyDT := ⟨false, today.year, p.month, p.day, 0, 0⟩
        match pyDatetimeLt replaced today with
        | .error e => .error e
        | .ok isPast =>
            if isPast && decide (10 < today.month) then
              .ok (fmtDate (today.year + 1) p.month p.day)
            else .ok (fmtDate today.year p.month p.day)
  | none => .error (.invalidInput ("Could not parse date: " ++ t))

/-- The `utils_emot.py` `standardize_date_format` (lines 168-218): same
format list and year heuristic, but every `datetime.now()` is naive, so the
yearless comparison succeeds. -/
def standardize_date_format_emot (now : PyDT) (s : String) : Except PyErr String :=
  let t := pyStripS s
  if pyLower t = "today" then .ok (shiftDateString now 0)
  else if pyLower t = "tomorrow" then .ok (shiftDateString now 1)
  else if pyLower t = "yesterday" then .ok (shiftDateString now (-1))
  else
  match tryDateFormats t with
  | some p =>
      if p.hasYear then .ok (fmtDate p.year p.month p.day)
      else
        let replaced : PyDT := ⟨now.aware, now.year, p.month, p.day, 0, 0⟩
        if civilLt replaced now && decide (10 < now.month) then
          .ok (fmtDate (now.year + 1) p.month p.day)
        else .ok (fmtDate now.year p.month p.day)
  | none => .error (.invalidInput ("Could not parse date: " ++ t))

/-- A JSON scalar as it may appear in a model-extracted field such as
`duration` (the claims need integers, strings, booleans and null). -/
inductive JValue where
  | jint (n : Int)
  | jstr (s : String)
  | jbool (b : Bool)
  | jnull
  deriving DecidableEq, Repr

/-- Python `int(s)` on a string: optional surrounding whitespace, optional
sign, at least one digit; `ValueError` (here `none`) otherwise. -/
def pyIntOfString (s : String) : Option Int :=
  match pyStrip s.toList with
  | '+' :: ds => if ds ≠ [] && ds.all isDigitChar then some (natOfDigits ds) else none
  | '-' :: ds => if ds ≠ [] && ds.all isDigitChar then some (-(natOfDigits ds : Int)) else none
  | ds => if ds ≠ [] && ds.all isDigitChar then some (natOfDigits ds) else none

/-- Python `int(x)`: identity on integers, 0/1 on booleans, string parse on
strings, `TypeError` (here `none`) on `None`. -/
def pyToInt : JValue → Option Int
  | .jint n => some n
  | .jbool b => some (if b then 1 else 0)
  | .jstr s => pyIntOfString s
  | .jnull => none

/-- The event-details dictionary flowing between the core components; a
missing dictionary key is `none`. -/
structure EventDetails where
  action : Option String := none
  title : Option String := none
  original_title : Option String := none
  new_title : Option String := none
  day : Option String := none
  date : Option String := none
  time : Option String := none
  duration : Option JValue := none
  clarification : Option String := none
  deriving DecidableEq, Repr

/-- Standardize the `time` field when present
(`validated["time"] = standardize_time_format(...)`). -/
def stdTimeField (d : EventDetails) : Except PyErr EventDetails :=
  match d.time with
  | none => .ok d
  | some s => (standardize_time_format s).map fun v => { d with time := some v }

/-- Standardize the `date` field when present, through the supplied
`standardize_date_format` (each source file calls its own revision). -/
def stdDateField (stdDate : String → Except PyErr String) (d : EventDetails) :
    Except PyErr EventDetails :=
  match d.date with
  | none => .ok d
  | some s => (stdDate s).map fun v => { d with date := some v }

/-- Standardize the `day` field when present. -/
def stdDayField (d : EventDetails) : Except PyErr EventDetails :=
  match d.day with
  | none => .ok d
  | some s => (standardize_day_format s).map fun v => { d with day := some v }

/-- The `duration` defaulting of `validate_event_details` (`utils.py` lines
50-60): missing, non-convertible or non-positive durations become 30,
positive convertible durations keep their integer value. -/
def defaultedDuration : Option JValue → Int
  | none => 30
  | some j =>
      match pyToInt j with
      | none => 30
      | some n => if n ≤ 0 then 30 else n

/-- The CREATE branch of `validate_event_details`. -/
def validateCreate (stdDate : String → Except PyErr String) (d : EventDetails) :
    Except PyErr EventDetails :=
  match d.title with
  | none => .error (.invalidInput "Event title is required")
  | some t =>
      if pyStripS t = "" then .error (.invalidInput "Event title is required")
      else
        let d := { d with title := some (pyStripS t) }
        if d.time = none ∧ d.day = none ∧ d.date = none then
          .error (.invalidInput "Please specify when this event should occur (time, day, or date)")
        else do
          let d ← stdTimeField d
          let d ← stdDateField stdDate d
          let d ← stdDayField d
          .ok { d with duration := some (.jint (defaultedDuration d.duration)) }

/-- The EDIT branch of `validate_event_details`. -/
def validateEdit (stdDate : String → Except PyErr String) (d : EventDetails) :
    Except PyErr EventDetails :=
  match d.original_title with
  | none => .error (.invalidInput "Please specify which event you want to edit")
  | some t =>
      if pyStripS t = "" then .error (.invalidInput "Please specify which event you want to edit")
      else if d.date = none ∧ d.day = none ∧ d.time = none then
        .error (.invalidInput "I need more information to identify the event you want to edit. Please include date, day, or time.")
      else do
        let d ← stdTimeField d
        let d ← stdDateField stdDate d
        let d ← stdDayField d
        match d.new_title with
        | some nt =>
            if pyStripS nt = "" then .error (.invalidInput "New event title cannot be empty")
            else .ok d
        | none => .ok d

/-- The DELETE branch of `validate_event_details`. -/
def validateDelete (stdDate : String → Except PyErr String) (d : EventDetails) :
    Except PyErr EventDetails :=
  match d.original_title with
  | none => .error (.invalidInput "Please specify which event you want to delete")
  | some t =>
      if pyStripS t = "" then .error (.invalidInput "Please specify which event you want to delete")
      else if d.date = none ∧ d.day = none ∧ d.time = none then
        .error (.invalidInput "I need more information to identify the event you want to delete. Please include date, day, or time.")
      else do
        let d ← stdTimeField d
        let d ← stdDateField stdDate d
        let d ← stdDayField d
        .ok d

/-- The VIEW branch of `validate_event_details` (no time standardization). -/
def validateView (stdDate : String → Except PyErr String) (d : EventDetails) :
    Except PyErr EventDetails :=
  if d.date = none ∧ d.day = none then
    .error (.invalidInput "Please specify which day or date you want to view events for")
  else do
    let d ← stdDateField stdDate d
    let d ← stdDayField d
    .ok d

/-- `validate_event_details` (identical text in `utils.py` lines 12-122 and
`utils_emot.py` lines 11-121), parameterized by the `standardize_date_format`
revision the enclosing file defines. -/
def validate_event_details (stdDate : String → Except PyErr String) (d : EventDetails) :
    Except PyErr EventDetails :=
  match d.action with
  | none => .error (.invalidInput "No action specified in event details")
  | some act =>
      if act = "CREATE" then validateCreate stdDate d
      else if act = "EDIT" then validateEdit stdDate d
      else if act = "DELETE" then validateDelete stdDate d
      else if act = "VIEW" then validateView stdDate d
      else if act = "UNKNOWN" then
        match d.clarification with
        | none => .ok { d with clarification := some "I\x27m not sure what you want to do with your calendar. Could you be more specific?" }
        | some _ => .ok d
      else .error (.invalidInput ("Unknown action type: " ++ act))

/-- A time slot of the `TimeSlotManager` (`utils_emot.py` lines 1078-1088):
start and end instants on the integer minute timeline, plus the owning
event id. -/
structure TimeSlot where
  startTime : Int
  endTime : Int
  eventId : Option String := none
  deriving DecidableEq, Repr

/-- `TimeSlot.overlaps`: strict interval intersection test. -/
def TimeSlot.overlapsB (a b : TimeSlot) : Bool :=
  a.startTime < b.endTime && a.endTime > b.startTime

/-- `TimeSlotManager.add_time_slot` (lines 1112-1125) on the slot list of one
date: reject (returning the list unchanged) when the new slot overlaps an
existing one, append it otherwise. -/
def addTimeSlot (slots : List TimeSlot) (s : TimeSlot) : Bool × List TimeSlot :=
  if slots.any (fun t => s.overlapsB t) then (false, slots)
  else (true, slots ++ [s])

/-- State of one date's slot list after a sequence of `add_time_slot` calls
starting from the empty manager. -/
def runAdds (adds : List TimeSlot) : List TimeSlot :=
  adds.foldl (fun st s => (addTimeSlot st s).2) []

/-- Stable insertion (ascending by `start_time`) used to model Python
`sorted(..., key=lambda x: x.start_time)`. -/
def insertByStart (x : TimeSlot) : List TimeSlot → List TimeSlot
  | [] => [x]
  | t :: ts => if t.startTime ≤ x.startTime then t :: insertByStart x ts else x :: t :: ts

/-- Python `sorted(slots, key=lambda x: x.start_time)` (stable). -/
def sortSlots (slots : List TimeSlot) : List TimeSlot :=
  slots.foldl (fun acc x => insertByStart x acc) []

/-- `min_time` constraint test: `not min_time or candidate >= min_time`. -/
def minOkB (minT : Option Int) (candidate : Int) : Bool :=
  match minT with
  | none => true
  | some m => m ≤ candidate

/-- `max_time` constraint test:
`not max_time or candidate_end <= max_time`. -/
def maxOkB (maxT : Option Int) (candidateEnd : Int) : Bool :=
  match maxT with
  | none => true
  | some m => candidateEnd ≤ m

/-- The gap loop of `find_available_slot` (lines 1168-1182): walk consecutive
sorted slots, skip gaps starting in the past, return the first gap start
whose length and constraints fit. -/
def scanGaps (now dur : Int) (minT maxT : Option Int) : List TimeSlot → Option Int
  | a :: b :: rest =>
      let gapStart := a.endTime
      let gapEnd := b.startTime
      if now ≤ gapStart && dur ≤ gapEnd - gapStart && minOkB minT gapStart &&
          maxOkB maxT (gapStart + dur) then
        some gapStart
      else scanGaps now dur minT maxT (b :: rest)
  | _ => none

/-- Last element of a nonempty slot list (`existing_slots[-1]`). -/
def lastSlot (a : TimeSlot) : List TimeSlot → TimeSlot
  | [] => a
  | b :: bs => lastSlot b bs

/-- The shared fallback tail of `find_available_slot`:
`return min_time if min_time and min_time >= current_time else current_time`. -/
def slotFallback (now : Int) (minT : Option Int) : Int :=
  match minT with
  | some m => if now ≤ m then m else now
  | none => now

/-- The fall-through tail of `find_available_slot` once a preferred start
has been ruled out (lines 1168-1193): gaps between the sorted occupied
slots, then the instant after the last slot, then the fallback. -/
def afterPreferredSlot (now dur : Int) (minT maxT : Option Int) (a : TimeSlot)
    (rest : List TimeSlot) : Int :=
  match scanGaps now dur minT maxT (a :: rest) with
  | some g => g
  | none =>
      let last := lastSlot a rest
      if now ≤ last.endTime && maxOkB maxT (last.endTime + dur) then last.endTime
      else slotFallback now minT

/-- `TimeSlotManager.find_available_slot` (`utils_emot.py` lines 1127-1193)
on the slot list of one date, with `current_time` passed in as `now`:
try the preferred start, then gaps between sorted occupied slots, then the
instant after the last slot, then the fallback. -/
def findAvailableSlot (now dur : Int) (slots : List TimeSlot)
    (preferred minT maxT : Option Int) : Int :=
  match sortSlots slots with
  | [] =>
      match preferred with
      | some p =>
          if now ≤ p && minOkB minT p && maxOkB maxT (p + dur) then p
          else slotFallback now minT
      | none => slotFallback now minT
  | a :: rest =>
      match preferred with
      | some p =>
          if now ≤ p && minOkB minT p && maxOkB maxT (p + dur) &&
              (a :: rest).all (fun t => !(TimeSlot.overlapsB ⟨p, p + dur, none⟩ t)) then p
          else afterPreferredSlot now dur minT maxT a rest
      | none => afterPreferredSlot now dur minT maxT a rest

/-- A timezone-localized event instant as the Event Matcher sees it after
`parse_datetime_from_api`: the civil day (as a day count since 1970-01-01)
plus the local time of day. -/
structure EvDT where
  day : Int
  hour : Nat
  minute : Nat
  deriving DecidableEq, Repr

/-- Minute count of an instant, for duration arithmetic. -/
def EvDT.toMinutes (t : EvDT) : Int := t.day * 1440 + t.hour * 60 + t.minute

/-- A calendar event returned by the CalendarStore `list` call: opaque id,
optional summary, parsed start and end instants, and whether each bound was
an all-day `date` field. -/
structure CalEvent where
  id : String
  summary : Option String := none
  start : EvDT
  endT : EvDT
  startAllDay : Bool := false
  endAllDay : Bool := false
  deriving DecidableEq, Repr

/-- Exact rational value of the Python float score expressions (similarity
ratios, 0.8, 1 - minutes/60).  Kept as an unreduced numerator/denominator
pair so the kernel can evaluate score arithmetic; all values the embedding
builds have positive denominators, under which `lt`/`le` are the rational
comparisons. -/
structure Frac where
  num : Int
  den : Int
  deriving DecidableEq, Repr

/-- Embed an integer. -/
def Frac.ofInt (n : Int) : Frac := ⟨n, 1⟩

/-- Exact addition. -/
def Frac.add (a b : Frac) : Frac := ⟨a.num * b.den + b.num * a.den, a.den * b.den⟩

/-- Exact subtraction. -/
def Frac.sub (a b : Frac) : Frac := ⟨a.num * b.den - b.num * a.den, a.den * b.den⟩

/-- Cross-multiplication strict comparison (float `<` for
positive-denominator values). -/
def Frac.lt (a b : Frac) : Bool := a.num * b.den < b.num * a.den

/-- Cross-multiplication non-strict comparison. -/
def Frac.le (a b : Frac) : Bool := a.num * b.den ≤ b.num * a.den

/-- A match produced by `find_matching_events`: the dictionary built at
`utils.py` lines 488-496. -/
structure MatchedEvent where
  id : String
  title : String
  start : EvDT
  endT : EvDT
  duration : Int
  matchScore : Frac
  allDay : Bool
  deriving DecidableEq, Repr

/-- The `day_map` dictionary `{MON: 0, ..., SUN: 6}` used by the matcher and
by `get_events_for_day`. -/
def dayMapNum (s : String) : Option Int :=
  if s = "MON" then some 0 else if s = "TUE" then some 1
  else if s = "WED" then some 2 else if s = "THU" then some 3
  else if s = "FRI" then some 4 else if s = "SAT" then some 5
  else if s = "SUN" then some 6 else none

/-- `datetime.strptime(event_details["date"], "%Y-%m-%d").date()` as a day
count. -/
def parseIsoDateSerial (s : String) : Option Int :=
  match tryFormatYMD s with
  | some p => some (daysFromCivil p.year p.month p.day)
  | none => none

/-- `calculate_title_similarity` (`utils.py` lines 364-369): the difflib
`SequenceMatcher.ratio` of the two lowercased titles; the ratio itself is
the oracle `sim`. -/
def calculate_title_similarity (sim : String → String → Frac) (t1 t2 : String) : Frac :=
  sim (pyLower t1) (pyLower t2)

/-- Build the match dictionary for a surviving candidate. -/
def mkMatchedEvent (ev : CalEvent) (summary : String) (score : Frac) : MatchedEvent :=
  { id := ev.id
    title := summary
    start := ev.start
    endT := ev.endT
    duration := ev.endT.toMinutes - ev.start.toMinutes
    matchScore := score
    allDay := ev.startAllDay && ev.endAllDay }

/-- Time-window step of the matcher loop (`utils.py` lines 452-482):
an unparsable descriptor time is ignored (`except ... pass`); a parsed time
more than 15 minutes from the event start discards the candidate; otherwise
the closeness score is added. -/
def matchEventTime (parseTime : String → Option (Nat × Nat)) (details : EventDetails)
    (ev : CalEvent) (summary : String) (score : Frac) : Option MatchedEvent :=
  match details.time with
  | none => some (mkMatchedEvent ev summary score)
  | some ts =>
      match parseTime ts with
      | none => some (mkMatchedEvent ev summary score)
      | some (ph, pm) =>
          let diff := ((ev.start.hour * 60 + ev.start.minute : Int) - (ph * 60 + pm : Int)).natAbs
          if 15 < diff then none
          else some (mkMatchedEvent ev summary (score.add ((Frac.ofInt 1).sub ⟨(diff : Int), 60⟩)))

/-- Day-of-week step of the matcher loop (`utils.py` lines 441-450): a
mismatched (or unmapped) day discards the candidate, a match adds 0.8. -/
def matchEventDay (parseTime : String → Option (Nat × Nat)) (details : EventDetails)
    (ev : CalEvent) (summary : String) (score : Frac) : Option MatchedEvent :=
  match details.day with
  | none => matchEventTime parseTime details ev summary score
  | some ds =>
      match dayMapNum ds with
      | some target =>
          if weekdayOf ev.start.day = target then
            matchEventTime parseTime details ev summary (score.add ⟨4, 5⟩)
          else none
      | none => none

/-- Title-similarity gate of the matcher loop (`utils.py` lines 406-420):
without an `original_title` the running score starts at 0; with one, a
similarity below the threshold discards the candidate, otherwise the
similarity joins the score. -/
def titleGate (sim : String → String → Frac) (thr : Frac) (details : EventDetails)
    (summary : String) : Option Frac :=
  match details.original_title with
  | none => some (Frac.ofInt 0)
  | some t =>
      let s := calculate_title_similarity sim t summary
      if s.lt thr then none else some s

/-- One iteration of the matcher loop over a candidate event
(`utils.py` lines 398-496): skip events without a summary, apply the title
similarity threshold, then the exclusionary date and day filters, then the
time window.  A malformed descriptor date raises `ValueError`. -/
def matchEvent (sim : String → String → Frac) (parseTime : String → Option (Nat × Nat))
    (thr : Frac) (details : EventDetails) (ev : CalEvent) :
    Except PyErr (Option MatchedEvent) :=
  match ev.summary with
  | none => .ok none
  | some summary =>
      match titleGate sim thr details summary with
      | none => .ok none
      | some sc =>
          match details.date with
          | none => .ok (matchEventDay parseTime details ev summary sc)
          | some ds =>
              match parseIsoDateSerial ds with
              | none => .error .valueError
              | some target =>
                  if ev.start.day = target then
                    .ok (matchEventDay parseTime details ev summary (sc.add (Frac.ofInt 1)))
                  else .ok none

/-- The matcher loop over the whole candidate list. -/
def collectMatches (sim : String → String → Frac) (parseTime : String → Option (Nat × Nat))
    (thr : Frac) (details : EventDetails) : List CalEvent → Except PyErr (List MatchedEvent)
  | [] => .ok []
  | ev :: rest =>
      match matchEvent sim parseTime thr details ev with
      | .error e => .error e
      | .ok none => collectMatches sim parseTime thr details rest
      | .ok (some m) => (collectMatches sim parseTime thr details rest).map (m :: ·)

/-- Stable insertion (descending by `match_score`) modelling Python
`list.sort(key=..., reverse=True)`. -/
def insertByScore (x : MatchedEvent) : List MatchedEvent → List MatchedEvent
  | [] => [x]
  | t :: ts => if x.matchScore.le t.matchScore then t :: insertByScore x ts else x :: t :: ts

/-- `matching_events.sort(key=lambda x: x["match_score"], reverse=True)`. -/
def sortByScoreDesc (l : List MatchedEvent) : List MatchedEvent :=
  l.foldl (fun acc x => insertByScore x acc) []

/-- `find_matching_events` (`utils.py` lines 371-510, identical in
`utils_emot.py` lines 331-470) over the candidate events the CalendarStore
window query returned: score each candidate, sort by score descending.
Internal exceptions are caught by the function's own handler and re-raised
as a generic error (none of the embedded messages contain `invalid_grant`
or `quota`). -/
def find_matching_events (sim : String → String → Frac)
    (parseTime : String → Option (Nat × Nat)) (thr : Frac) (details : EventDetails)
    (events : List CalEvent) : Except PyErr (List MatchedEvent) :=
  match collectMatches sim parseTime thr details events with
  | .ok ms => .ok (sortByScoreDesc ms)
  | .error _ => .error .genericError

/-- Observable outcome of `delete_event` short of an exception: either the
multi-match disambiguation listing (built from `format_event_details` over
the matches) or the deletion confirmation message. -/
inductive DeleteResult where
  | ambiguousListing (found : List MatchedEvent)
  | confirmed (deletedId : String) (message : String)
  deriving DecidableEq, Repr

/-- The confirmation f-string of `delete_event`. -/
def deleteConfirmMsg (title : String) : String :=
  "I\x27ve deleted \x27" ++ title ++ "\x27 from your calendar."

/-- `delete_event` (`utils_emot.py` lines 1501-1540): validate, match with
the default 0.6 threshold, raise `EventNotFoundError` on zero matches,
return the disambiguation listing on several matches, delete exactly one
event otherwise.  The second component records the CalendarStore delete
calls issued. -/
def delete_event (sim : String → String → Frac) (parseTime : String → Option (Nat × Nat))
    (stdDate : String → Except PyErr String) (details : EventDetails)
    (events : List CalEvent) : Except PyErr (DeleteResult × List String) :=
  match validate_event_details stdDate details with
  | .error e => .error e
  | .ok d =>
      match find_matching_events sim parseTime ⟨3, 5⟩ d events with
      | .error _ => .error .genericError
      | .ok [] => .error (.eventNotFound "I couldn\x27t find any events matching your description")
      | .ok [m] => .ok (.confirmed m.id (deleteConfirmMsg m.title), [m.id])
      | .ok ms => .ok (.ambiguousListing ms, [])

/-- The start/end computation of `schedule_event` (`utils.py` lines
1331-1348), with the nominal start already resolved from the descriptor
date/day and time fields: skip events in the past, add the travel time to
the duration, shift the start earlier by the travel time. -/
def scheduleEventTimes (now nominalStart duration travelTime : Int) : Option (Int × Int) :=
  if nominalStart < now then none
  else
    let totalDuration := duration + travelTime
    let startTime := if travelTime ≠ 0 then nominalStart - travelTime else nominalStart
    some (startTime, startTime + totalDuration)

/-- The day-of-week resolution of `get_events_for_day`
(`utils_emot.py` lines 537-555): standardize the day, compute the days
ahead to the next occurrence, and when that is today but the local time is
already 18:00 or later, jump to next week instead.  Returns the target
date as a day count. -/
def resolveViewDayDate (today : Int) (hourNow : Nat) (dayStr : String) :
    Except PyErr Int :=
  match standardize_day_format dayStr with
  | .error e => .error e
  | .ok code =>
      match dayMapNum code with
      | none => .error .keyError
      | some target =>
          let daysAhead := (target - weekdayOf today) % 7
          let daysAhead := if daysAhead = 0 ∧ 18 ≤ hourNow then 7 else daysAhead
          .ok (today + daysAhead)

/-- The JSON-substring extraction of `parse_natural_language`
(`utils.py` lines 760-770): strip the raw response, locate the first
opening and the last closing square bracket, slice between them;
`ValueError` when either is missing. -/
def extractJsonSlice (raw : String) : Option String :=
  let cs := pyStrip raw.toList
  let lastClose : Option Nat :=
    match cs.reverse.findIdx? (· = ']') with
    | some k => some (cs.length - 1 - k)
    | none => none
  match cs.findIdx? (· = '['), lastClose with
  | some i, some j => some (String.mk ((cs.drop i).take (j + 1 - i)))
  | _, _ => none

/-- The per-action loop of `parse_natural_language` (lines 776-804): a
missing `action` key raises `KeyError`; actions missing the pre-checked
fields are skipped with a warning; `InvalidInputError` from validation
skips the action; any other exception escapes to the outer handler. -/
def validateLoop (vd : EventDetails → Except PyErr EventDetails) :
    List EventDetails → Except PyErr (List EventDetails)
  | [] => .ok []
  | a :: rest =>
      match a.action with
      | none => .error .keyError
      | some act =>
          let skip : Bool :=
            if act = "VIEW" then a.date = none ∧ a.day = none
            else if act = "CREATE" then a.title = none ∨ a.time = none
            else if act = "EDIT" then a.original_title = none
            else if act = "DELETE" then a.original_title = none
            else false
          if skip then validateLoop vd rest
          else
            match vd a with
            | .ok v => (validateLoop vd rest).map (v :: ·)
            | .error (.invalidInput _) => validateLoop vd rest
            | .error e => .error e

/-- The body of `parse_natural_language` inside its outer `try`
(lines 757-804), over the Interpreter response text: extract the JSON
slice, parse it through the `json.loads` oracle, validate each action with
`validate_event_details` over the `utils.py` date normalizer. -/
def parseNLBody (jsonLoads : String → Option (List EventDetails)) (today : PyDT)
    (raw : String) : Except PyErr (List EventDetails) :=
  match extractJsonSlice raw with
  | none => .error .valueError
  | some js =>
      match jsonLoads js with
      | none => .error .jsonDecodeError
      | some actions =>
          validateLoop (validate_event_details (standardize_date_format_utils today)) actions

/-- The UNKNOWN descriptor `parse_natural_language` returns from its outer
exception handler (lines 806-811). -/
def unknownFallback : EventDetails :=
  { action := some "UNKNOWN"
    clarification := some "I\x27m having trouble understanding your request. Could you be more specific?" }

/-- `parse_natural_language` (`utils.py` lines 693-811) over the raw
Interpreter output: the outer `except Exception` converts every failure of
the body into the single-element UNKNOWN descriptor list. -/
def parse_natural_language (jsonLoads : String → Option (List EventDetails))
    (today : PyDT) (raw : String) : List EventDetails :=
  match parseNLBody jsonLoads today raw with
  | .ok l => l
  | .error _ => [unknownFallback]

set_option maxRecDepth 8192

lemma dayMapNum_bounds {s : String} {t : Int} (h : dayMapNum s = some t) : 0 ≤ t ∧ t < 7 := by
  unfold dayMapNum at h
  split_ifs at h <;> (injection h with h; omega)

/-- Claim C5: for every CREATE with travel time T > 0 and duration D that is
not skipped as past, the event block `schedule_event` inserts has
end - start = T + D, its start is the nominal start shifted T minutes
earlier, its end is nominal start + D, and the nominal appointment begins
at start + T. -/
theorem scheduleEventTimes_travel (now nominalStart D T : Int) (hT : 0 < T)
    (hfuture : now ≤ nominalStart) :
    scheduleEventTimes now nominalStart D T = some (nominalStart - T, nominalStart + D) ∧
    (nominalStart + D) - (nominalStart - T) = T + D ∧
    (nominalStart - T) + T = nominalStart := by
  have hne : T ≠ 0 := by omega
  refine ⟨?_, by ring, by ring⟩
  simp only [scheduleEventTimes, if_neg (by omega : ¬ nominalStart < now), if_pos hne]
  have : nominalStart - T + (D + T) = nominalStart + D := by ring
  rw [this]

theorem scheduleEventTimes_travel_witness :
    scheduleEventTimes 0 100 45 15 = some (100 - 15, 100 + 45) ∧
    ((100 : Int) + 45) - (100 - 15) = 15 + 45 ∧ ((100 : Int) - 15) + 15 = 100 :=
  scheduleEventTimes_travel 0 100 45 15 (by decide) (by decide)

/-- Claim C4: resolving a VIEW by day-of-week (the day branch of
`get_events_for_day`), the target date always falls on the requested
weekday; when the requested day equals the current weekday and the local
time is at or past 18:00, the resolved date is next week (today + 7), not
today; otherwise it is the earliest date on or after today with that
weekday. -/
theorem resolveViewDayDate_correct (today : Int) (hourNow : Nat) (dayStr code : String)
    (target r : Int) (hstd : standardize_day_format dayStr = .ok code)
    (hmap : dayMapNum code = some target)
    (hres : resolveViewDayDate today hourNow dayStr = .ok r) :
    weekdayOf r = target ∧
    (weekdayOf today = target ∧ 18 ≤ hourNow → r = today + 7 ∧ r ≠ today) ∧
    (¬(weekdayOf today = target ∧ 18 ≤ hourNow) →
      today ≤ r ∧ r ≤ today + 6 ∧ ∀ d : Int, today ≤ d → weekdayOf d = target → r ≤ d) := by
  obtain ⟨ht0, ht7⟩ := dayMapNum_bounds hmap
  unfold resolveViewDayDate at hres
  rw [hstd] at hres
  simp only [hmap] at hres
  rw [Except.ok.injEq] at hres
  unfold weekdayOf at *
  have hw1 : 0 ≤ (today + 3) % 7 := Int.emod_nonneg _ (by norm_num)
  have hw2 : (today + 3) % 7 < 7 := Int.emod_lt_of_pos _ (by norm_num)
  have hwk := Int.ediv_add_emod (today + 3) 7
  have hda1 : 0 ≤ (target - (today + 3) % 7) % 7 := Int.emod_nonneg _ (by norm_num)
  have hda2 : (target - (today + 3) % 7) % 7 < 7 := Int.emod_lt_of_pos _ (by norm_num)
  have hdak := Int.ediv_add_emod (target - (today + 3) % 7) 7
  have hr1 : 0 ≤ (r + 3) % 7 := Int.emod_nonneg _ (by norm_num)
  have hr2 : (r + 3) % 7 < 7 := Int.emod_lt_of_pos _ (by norm_num)
  have hrk := Int.ediv_add_emod (r + 3) 7
  split_ifs at hres with hcut
  · refine ⟨by omega, fun _ => by omega, fun hn => absurd ⟨by omega, hcut.2⟩ hn⟩
  · refine ⟨by omega, fun hc => absurd ⟨by omega, hc.2⟩ hcut,
      fun hn => ⟨by omega, by omega, fun d hd hwd => ?_⟩⟩
    have hd1 : 0 ≤ (d + 3) % 7 := Int.emod_nonneg _ (by norm_num)
    have hd2 : (d + 3) % 7 < 7 := Int.emod_lt_of_pos _ (by norm_num)
    have hdk := Int.ediv_add_emod (d + 3) 7
    omega

theorem resolveViewDayDate_correct_witness :
    weekdayOf 14 = 3 ∧
    (weekdayOf (7 : Int) = 3 ∧ 18 ≤ 19 → (14 : Int) = 7 + 7 ∧ (14 : Int) ≠ 7) ∧
    (¬(weekdayOf (7 : Int) = 3 ∧ 18 ≤ 19) →
      (7 : Int) ≤ 14 ∧ (14 : Int) ≤ 7 + 6 ∧ ∀ d : Int, 7 ≤ d → weekdayOf d = 3 → 14 ≤ d) :=
  resolveViewDayDate_correct 7 19 "THU" "THU" 3 14 (by decide) (by decide) (by decide)

/-- Claim C3 (code bug evaluation): the `utils.py` `standardize_date_format`
raises `TypeError` on every yearless input (naive `strptime` result compared
against the timezone-aware `datetime.now(local_tz)`), instead of returning
the current-year or rolled-over date; the `utils_emot.py` revision of the
same function, whose `now` is naive, implements the claimed behavior,
including the past-date/late-year rollover. -/
theorem standardize_date_yearless_typeerror :
    standardize_date_format_utils ⟨true, 2024, 6, 10, 12, 0⟩ "12/31" = .error .typeError ∧
    standardize_date_format_utils ⟨true, 2024, 6, 10, 12, 0⟩ "12-31" = .error .typeError ∧
    standardize_date_format_utils ⟨true, 2024, 6, 10, 12, 0⟩ "Dec 31" = .error .typeError ∧
    standardize_date_format_utils ⟨true, 2024, 6, 10, 12, 0⟩ "2023-12-31" = .ok "2023-12-31" ∧
    standardize_date_format_emot ⟨false, 2024, 6, 10, 12, 0⟩ "12/31" = .ok "2024-12-31" ∧
    standardize_date_format_emot ⟨false, 2024, 11, 20, 12, 0⟩ "1/15" = .ok "2025-01-15" := by
  decide

/-- Claim C10: every bare one- or two-digit hour input with value at most 12
(no minutes, no AM/PM marker) is accepted by `standardize_time_format` with
the period defaulting to PM, producing the two-digit form `HH:00 PM`, with
hour 0 mapped to 12. -/
theorem standardize_time_bare_hour :
    ∀ n : Nat, n < 13 →
      (n ≤ 9 → standardize_time_format (String.mk [digitChar n]) =
        .ok (fmtTime (if n = 0 then 12 else n) 0 .pm)) ∧
      standardize_time_format (String.mk [digitChar (n / 10), digitChar (n % 10)]) =
        .ok (fmtTime (if n = 0 then 12 else n) 0 .pm) := by
  decide

theorem standardize_time_bare_hour_witness :
    standardize_time_format (String.mk [digitChar 5]) = .ok (fmtTime 5 0 .pm) :=
  (standardize_time_bare_hour 5 (by decide)).1 (by decide)

lemma stdTimeField_setDuration (d : EventDetails) (j : Option JValue) :
    stdTimeField { d with duration := j } = (stdTimeField d).map fun e => { e with duration := j } := by
  obtain ⟨a, t, o, nt, dy, dt, tm, du, cl⟩ := d
  cases tm with
  | none => rfl
  | some s =>
      show (standardize_time_format s).map _ = ((standardize_time_format s).map _).map _
      cases standardize_time_format s <;> rfl

lemma stdDateField_setDuration (stdDate : String → Except PyErr String) (d : EventDetails)
    (j : Option JValue) :
    stdDateField stdDate { d with duration := j } =
      (stdDateField stdDate d).map fun e => { e with duration := j } := by
  obtain ⟨a, t, o, nt, dy, dt, tm, du, cl⟩ := d
  cases dt with
  | none => rfl
  | some s =>
      show (stdDate s).map _ = ((stdDate s).map _).map _
      cases stdDate s <;> rfl

lemma stdDayField_setDuration (d : EventDetails) (j : Option JValue) :
    stdDayField { d with duration := j } = (stdDayField d).map fun e => { e with duration := j } := by
  obtain ⟨a, t, o, nt, dy, dt, tm, du, cl⟩ := d
  cases dy with
  | none => rfl
  | some s =>
      show (standardize_day_format s).map _ = ((standardize_day_format s).map _).map _
      cases standardize_day_format s <;> rfl

lemma validateChain_setDuration (stdDate : String → Except PyErr String)
    (X : EventDetails) (j : Option JValue) :
    ((do
      let d1 ← stdTimeField { X with duration := j }
      let d2 ← stdDateField stdDate d1
      let d3 ← stdDayField d2
      Except.ok { d3 with duration := some (.jint (defaultedDuration d3.duration)) }) :
        Except PyErr EventDetails) =
    ((do
      let d1 ← stdTimeField X
      let d2 ← stdDateField stdDate d1
      let d3 ← stdDayField d2
      Except.ok { d3 with duration := some (.jint (defaultedDuration d3.duration)) }) :
        Except PyErr EventDetails).map
        (fun e => { e with duration := some (.jint (defaultedDuration j)) }) := by
  rw [stdTimeField_setDuration]
  cases stdTimeField X with
  | error e => rfl
  | ok d1 =>
      show ((do
        let d2 ← stdDateField stdDate { d1 with duration := j }
        let d3 ← stdDayField d2
        Except.ok { d3 with duration := some (.jint (defaultedDuration d3.duration)) }) :
          Except PyErr EventDetails) =
        ((do
          let d2 ← stdDateField stdDate d1
          let d3 ← stdDayField d2
          Except.ok { d3 with duration := some (.jint (defaultedDuration d3.duration)) }) :
            Except PyErr EventDetails).map
          (fun e => { e with duration := some (.jint (defaultedDuration j)) })
      rw [stdDateField_setDuration]
      cases stdDateField stdDate d1 with
      | error e => rfl
      | ok d2 =>
          show ((do
            let d3 ← stdDayField { d2 with duration := j }
            Except.ok { d3 with duration := some (.jint (defaultedDuration d3.duration)) }) :
              Except PyErr EventDetails) =
            ((do
              let d3 ← stdDayField d2
              Except.ok { d3 with duration := some (.jint (defaultedDuration d3.duration)) }) :
                Except PyErr EventDetails).map
              (fun e => { e with duration := some (.jint (defaultedDuration j)) })
          rw [stdDayField_setDuration]
          cases stdDayField d2 with
          | error e => rfl
          | ok d3 => rfl

lemma validateCreate_duration_shift (stdDate : String → Except PyErr String)
    (d : EventDetails) (j : Option JValue) :
    validateCreate stdDate { d with duration := j } =
      (validateCreate stdDate d).map
        (fun e => { e with duration := some (.jint (defaultedDuration j)) }) := by
  obtain ⟨a, t, o, nt, dy, dt, tm, du, cl⟩ := d
  cases t with
  | none => rfl
  | some t =>
      unfold validateCreate
      dsimp only
      by_cases he : pyStripS t = ""
      · rw [if_pos he, if_pos he]; rfl
      · rw [if_neg he, if_neg he]
        by_cases hti : (tm = none ∧ dy = none ∧ dt = none)
        · rw [if_pos hti, if_pos hti]; rfl
        · rw [if_neg hti, if_neg hti]
          exact validateChain_setDuration stdDate ⟨a, some (pyStripS t), o, nt, dy, dt, tm, du, cl⟩ j

/-- Claim C9: validating a CREATE descriptor sets the duration to 30
whenever the incoming duration is absent, not convertible to an integer, or
not strictly positive, preserves a strictly positive convertible duration
as its integer value, and never fails because of the duration field: any
successful validation stays successful under an arbitrary duration. -/
theorem validate_create_duration (stdDate : String → Except PyErr String)
    (d v : EventDetails) (hact : d.action = some "CREATE")
    (hok : validate_event_details stdDate d = .ok v) :
    v.duration = some (.jint (defaultedDuration d.duration)) ∧
    (∀ j n, d.duration = some j → pyToInt j = some n → 0 < n →
      v.duration = some (.jint n)) ∧
    (∀ j, validate_event_details stdDate { d with duration := j } =
      .ok { v with duration := some (.jint (defaultedDuration j)) }) := by
  have hcreate : ∀ d' : EventDetails, d'.action = some "CREATE" →
      validate_event_details stdDate d' = validateCreate stdDate d' := by
    intro d' ha
    unfold validate_event_details
    rw [ha]
    rfl
  rw [hcreate d hact] at hok
  have key : ∀ j : Option JValue, validateCreate stdDate { d with duration := j } =
      .ok { v with duration := some (.jint (defaultedDuration j)) } := by
    intro j
    rw [validateCreate_duration_shift, hok]
    rfl
  have self := key d.duration
  rw [show ({ d with duration := d.duration } : EventDetails) = d from rfl, hok,
    Except.ok.injEq] at self
  have hdur : v.duration = some (.jint (defaultedDuration d.duration)) := by
    rw [self]
  refine ⟨hdur, ?_, ?_⟩
  · intro j n hj hn hpos
    rw [hdur, hj]
    simp only [defaultedDuration, hn]
    rw [if_neg (by omega)]
  · intro j
    rw [hcreate { d with duration := j } (by exact hact)]
    exact key j

theorem validate_create_duration_witness :
    (validate_event_details (fun s => .ok s)
        { action := some "CREATE", title := some "x", day := some "MON",
          duration := some (.jstr "abc") } : Except PyErr EventDetails) =
      .ok { action := some "CREATE", title := some "x", day := some "MON",
            duration := some (.jint 30) } ∧
    ({ action := some "CREATE", title := some "x", day := some "MON",
       duration := some (.jint 30) } : EventDetails).duration =
      some (.jint (defaultedDuration (some (.jstr "abc")))) := by
  constructor
  · decide
  · exact (validate_create_duration (fun s => .ok s)
      { action := some "CREATE", title := some "x", day := some "MON",
        duration := some (.jstr "abc") }
      { action := some "CREATE", title := some "x", day := some "MON",
        duration := some (.jint 30) } rfl (by decide)).1

/-- Claim C7: `parse_natural_language` never propagates an exception: every
failure of its body, in particular an Interpreter response with no
locatable bracketed JSON or with an unparsable slice, yields the
single-element list holding an UNKNOWN descriptor that carries a
clarification string; a successful body is returned as the descriptor
list. -/
theorem parse_natural_language_robust (jsonLoads : String → Option (List EventDetails))
    (today : PyDT) (raw : String) :
    (∀ e, parseNLBody jsonLoads today raw = .error e →
      parse_natural_language jsonLoads today raw = [unknownFallback]) ∧
    (∀ l, parseNLBody jsonLoads today raw = .ok l →
      parse_natural_language jsonLoads today raw = l) ∧
    (extractJsonSlice raw = none →
      parse_natural_language jsonLoads today raw = [unknownFallback]) ∧
    (∀ js, extractJsonSlice raw = some js → jsonLoads js = none →
      parse_natural_language jsonLoads today raw = [unknownFallback]) ∧
    unknownFallback.action = some "UNKNOWN" ∧
    unknownFallback.clarification.isSome = true := by
  refine ⟨?_, ?_, ?_, ?_, rfl, rfl⟩
  · intro e he
    unfold parse_natural_language
    rw [he]
  · intro l hl
    unfold parse_natural_language
    rw [hl]
  · intro hx
    unfold parse_natural_language parseNLBody
    rw [hx]
  · intro js hjs hn
    simp only [parse_natural_language, parseNLBody, hjs, hn]

theorem parse_natural_language_robust_witness :
    parse_natural_language (fun _ => none) ⟨true, 2024, 6, 10, 12, 0⟩ "hello" = [unknownFallback] :=
  (parse_natural_language_robust (fun _ => none) ⟨true, 2024, 6, 10, 12, 0⟩ "hello").2.2.1
    (by decide)

/-- Claim C2: `delete_event` follows the EDIT matching discipline: it runs
the validated descriptor through `find_matching_events` with the default
0.6 threshold; zero matches raise `EventNotFoundError`; more than one
match returns the disambiguation listing and issues no delete call;
exactly one match issues exactly one CalendarStore delete call for that
event and returns the confirmation message naming the deleted event's
title. -/
theorem delete_event_discipline (sim : String → String → Frac)
    (parseTime : String → Option (Nat × Nat)) (stdDate : String → Except PyErr String)
    (details : EventDetails) (events : List CalEvent) (d : EventDetails)
    (hval : validate_event_details stdDate details = .ok d) :
    (find_matching_events sim parseTime ⟨3, 5⟩ d events = .ok [] →
      delete_event sim parseTime stdDate details events =
        .error (.eventNotFound "I couldn\x27t find any events matching your description")) ∧
    (∀ m, find_matching_events sim parseTime ⟨3, 5⟩ d events = .ok [m] →
      delete_event sim parseTime stdDate details events =
        .ok (.confirmed m.id (deleteConfirmMsg m.title), [m.id])) ∧
    (∀ m m2 ms, find_matching_events sim parseTime ⟨3, 5⟩ d events = .ok (m :: m2 :: ms) →
      delete_event sim parseTime stdDate details events =
        .ok (.ambiguousListing (m :: m2 :: ms), [])) := by
  refine ⟨fun h => ?_, fun m h => ?_, fun m m2 ms h => ?_⟩ <;>
    simp only [delete_event, hval, h]

theorem delete_event_discipline_witness :
    delete_event (fun _ _ => ⟨1, 1⟩) (fun _ => none) (fun s => .ok s)
      { action := some "DELETE", original_title := some "Dentist", day := some "MON" }
      [{ id := "e1", summary := some "Dentist", start := ⟨4, 9, 0⟩, endT := ⟨4, 10, 0⟩ }] =
      .ok (.confirmed "e1" (deleteConfirmMsg "Dentist"), ["e1"]) :=
  (delete_event_discipline (fun _ _ => ⟨1, 1⟩) (fun _ => none) (fun s => .ok s)
      { action := some "DELETE", original_title := some "Dentist", day := some "MON" }
      [{ id := "e1", summary := some "Dentist", start := ⟨4, 9, 0⟩, endT := ⟨4, 10, 0⟩ }]
      { action := some "DELETE", original_title := some "Dentist", day := some "MON" }
      (by decide)).2.1
    { id := "e1", title := "Dentist", start := ⟨4, 9, 0⟩, endT := ⟨4, 10, 0⟩,
      duration := 60, matchScore := ⟨9, 5⟩, allDay := false }
    (by decide)

lemma mem_insertByScore {m x : MatchedEvent} {l : List MatchedEvent} :
    m ∈ insertByScore x l ↔ m = x ∨ m ∈ l := by
  induction l with
  | nil => simp [insertByScore]
  | cons t ts ih =>
      unfold insertByScore
      split_ifs with h <;> (simp only [List.mem_cons, ih]; try tauto)

lemma mem_sortByScoreDesc {m : MatchedEvent} {l : List MatchedEvent} :
    m ∈ sortByScoreDesc l ↔ m ∈ l := by
  have h : ∀ (l acc : List MatchedEvent),
      m ∈ l.foldl (fun acc x => insertByScore x acc) acc ↔ m ∈ acc ∨ m ∈ l := by
    intro l
    induction l with
    | nil => intro acc; simp
    | cons x xs ih =>
        intro acc
        rw [List.foldl_cons, ih, mem_insertByScore]
        simp only [List.mem_cons]
        tauto
  simpa [sortByScoreDesc] using h l []

lemma matchEventTime_start {parseTime : String → Option (Nat × Nat)} {details : EventDetails}
    {ev : CalEvent} {summary : String} {score : Frac} {m : MatchedEvent}
    (h : matchEventTime parseTime details ev summary score = some m) : m.start = ev.start := by
  unfold matchEventTime at h
  cases hdt : details.time with
  | none =>
      simp only [hdt] at h
      cases h
      rfl
  | some ts =>
      simp only [hdt] at h
      cases hpt : parseTime ts with
      | none =>
          simp only [hpt] at h
          cases h
          rfl
      | some pr =>
          obtain ⟨ph, pm⟩ := pr
          simp only [hpt] at h
          split at h
          · exact absurd h (by simp)
          · cases h
            rfl

lemma matchEventDay_props {parseTime : String → Option (Nat × Nat)} {details : EventDetails}
    {ev : CalEvent} {summary : String} {score : Frac} {m : MatchedEvent}
    (h : matchEventDay parseTime details ev summary score = some m) :
    m.start = ev.start ∧
    (∀ ds t, details.day = some ds → dayMapNum ds = some t → weekdayOf ev.start.day = t) := by
  unfold matchEventDay at h
  cases hdy : details.day with
  | none =>
      simp only [hdy] at h
      refine ⟨matchEventTime_start h, fun ds t hds _ => ?_⟩
      cases hds
  | some ds =>
      simp only [hdy] at h
      cases hmap : dayMapNum ds with
      | none =>
          simp only [hmap] at h
          cases h
      | some target =>
          simp only [hmap] at h
          split at h
          · rename_i hwk
            refine ⟨matchEventTime_start h, fun ds2 t hds2 hmap2 => ?_⟩
            injection hds2 with e
            subst e
            rw [hmap] at hmap2
            injection hmap2 with e2
            subst e2
            exact hwk
          · cases h

lemma matchEvent_props {sim : String → String → Frac} {parseTime : String → Option (Nat × Nat)}
    {thr : Frac} {details : EventDetails} {ev : CalEvent} {m : MatchedEvent}
    (h : matchEvent sim parseTime thr details ev = .ok (some m)) :
    m.start = ev.start ∧
    (∀ ds D, details.date = some ds → parseIsoDateSerial ds = some D → ev.start.day = D) ∧
    (∀ ds t, details.day = some ds → dayMapNum ds = some t → weekdayOf ev.start.day = t) := by
  unfold matchEvent at h
  cases hs : ev.summary with
  | none =>
      simp only [hs] at h
      cases h
  | some summary =>
      simp only [hs] at h
      cases hg : titleGate sim thr details summary with
      | none =>
          simp only [hg] at h
          cases h
      | some sc =>
          simp only [hg] at h
          cases hdt : details.date with
          | none =>
              simp only [hdt] at h
              rw [Except.ok.injEq] at h
              obtain ⟨hstart, hday⟩ := matchEventDay_props h
              refine ⟨hstart, fun ds D hds _ => ?_, hday⟩
              cases hds
          | some ds =>
              simp only [hdt] at h
              cases hpi : parseIsoDateSerial ds with
              | none =>
                  simp only [hpi] at h
                  cases h
              | some target =>
                  simp only [hpi] at h
                  split at h
                  · rename_i hde
                    rw [Except.ok.injEq] at h
                    obtain ⟨hstart, hday⟩ := matchEventDay_props h
                    refine ⟨hstart, fun ds2 D hds2 hpi2 => ?_, hday⟩
                    injection hds2 with e
                    subst e
                    rw [hpi] at hpi2
                    injection hpi2 with e2
                    subst e2
                    exact hde
                  · rw [Except.ok.injEq] at h
                    cases h

lemma collectMatches_mem {sim : String → String → Frac} {parseTime : String → Option (Nat × Nat)}
    {thr : Frac} {details : EventDetails} :
    ∀ {events : List CalEvent} {ms : List MatchedEvent},
      collectMatches sim parseTime thr details events = .ok ms →
      ∀ m ∈ ms, ∃ ev ∈ events, matchEvent sim parseTime thr details ev = .ok (some m) := by
  intro events
  induction events with
  | nil =>
      intro ms h m hm
      unfold collectMatches at h
      rw [Except.ok.injEq] at h
      subst h
      cases hm
  | cons ev rest ih =>
      intro ms h m hm
      unfold collectMatches at h
      cases hme : matchEvent sim parseTime thr details ev with
      | error e =>
          simp only [hme] at h
          cases h
      | ok o =>
          simp only [hme] at h
          cases o with
          | none =>
              obtain ⟨ev2, hev2, hm2⟩ := ih h m hm
              exact ⟨ev2, List.mem_cons_of_mem _ hev2, hm2⟩
          | some m0 =>
              cases hr : collectMatches sim parseTime thr details rest with
              | error e =>
                  simp only [hr, Except.map] at h
                  cases h
              | ok ms2 =>
                  simp only [hr, Except.map, Except.ok.injEq] at h
                  subst h
                  rcases List.mem_cons.mp hm with rfl | hm2
                  · exact ⟨ev, List.mem_cons_self _ _, hme⟩
                  · obtain ⟨ev2, hev2, hm3⟩ := ih hr m hm2
                    exact ⟨ev2, List.mem_cons_of_mem _ hev2, hm3⟩

/-- Claim C6: the Event Matcher is exclusionary on date and day: every
match it returns starts on the descriptor date (when a date is given) and
on the descriptor weekday (when a day is given) -- for every similarity
oracle, so even a candidate with title similarity 1.0 is excluded when its
date or weekday mismatches. -/
theorem find_matching_events_exclusionary (sim : String → String → Frac)
    (parseTime : String → Option (Nat × Nat)) (thr : Frac) (details : EventDetails)
    (events : List CalEvent) (ms : List MatchedEvent)
    (hok : find_matching_events sim parseTime thr details events = .ok ms) :
    ∀ m ∈ ms,
      (∀ ds D, details.date = some ds → parseIsoDateSerial ds = some D → m.start.day = D) ∧
      (∀ ds t, details.day = some ds → dayMapNum ds = some t → weekdayOf m.start.day = t) := by
  unfold find_matching_events at hok
  cases hc : collectMatches sim parseTime thr details events with
  | error e =>
      rw [hc] at hok
      cases hok
  | ok ms0 =>
      rw [hc, Except.ok.injEq] at hok
      subst hok
      intro m hm
      obtain ⟨ev, hev, hme⟩ := collectMatches_mem hc m (mem_sortByScoreDesc.mp hm)
      obtain ⟨hstart, hdate, hday⟩ := matchEvent_props hme
      exact ⟨fun ds D h1 h2 => by rw [hstart]; exact hdate ds D h1 h2,
        fun ds t h1 h2 => by rw [hstart]; exact hday ds t h1 h2⟩

theorem find_matching_events_exclusionary_witness :
    find_matching_events (fun _ _ => ⟨1, 1⟩) (fun _ => none) ⟨3, 5⟩
      { original_title := some "Dentist", date := some "1970-01-05" }
      [{ id := "e1", summary := some "Dentist", start := ⟨4, 9, 0⟩, endT := ⟨4, 10, 0⟩ }] =
      .ok [{ id := "e1", title := "Dentist", start := ⟨4, 9, 0⟩, endT := ⟨4, 10, 0⟩,
             duration := 60, matchScore := ⟨2, 1⟩, allDay := false }] ∧
    ({ id := "e1", title := "Dentist", start := ⟨4, 9, 0⟩, endT := ⟨4, 10, 0⟩,
       duration := 60, matchScore := ⟨2, 1⟩, allDay := false } : MatchedEvent).start.day = 4 :=
  ⟨by decide,
    ((find_matching_events_exclusionary (fun _ _ => ⟨1, 1⟩) (fun _ => none) ⟨3, 5⟩
        { original_title := some "Dentist", date := some "1970-01-05" }
        [{ id := "e1", summary := some "Dentist", start := ⟨4, 9, 0⟩, endT := ⟨4, 10, 0⟩ }]
        [{ id := "e1", title := "Dentist", start := ⟨4, 9, 0⟩, endT := ⟨4, 10, 0⟩,
           duration := 60, matchScore := ⟨2, 1⟩, allDay := false }]
        (by decide))
      { id := "e1", title := "Dentist", start := ⟨4, 9, 0⟩, endT := ⟨4, 10, 0⟩,
        duration := 60, matchScore := ⟨2, 1⟩, allDay := false }
      (by decide)).1 "1970-01-05" 4 rfl (by decide)⟩

set_option maxRecDepth 100000 in
lemma fmtTime_fixed : ∀ hh < 13, ∀ mm < 60, 1 ≤ hh →
    (standardize_time_format (fmtTime hh mm .am) = .ok (fmtTime hh mm .am) ∧
     standardize_time_format (fmtTime hh mm .pm) = .ok (fmtTime hh mm .pm)) := by decide

lemma standardize_time_ok_shape {s out : String}
    (h : standardize_time_format s = .ok out) :
    ∃ hh mm p, 1 ≤ hh ∧ hh ≤ 12 ∧ mm ≤ 59 ∧ out = fmtTime hh mm p := by
  unfold standardize_time_format at h
  cases h24 : match24 ((pyStrip s.toList).map pyUpperChar) with
  | some pr =>
      obtain ⟨hr, mr⟩ := pr
      simp only [h24] at h
      split at h
      · cases h
      · rename_i hrange
        rw [Except.ok.injEq] at h
        refine ⟨(if hr % 12 = 0 then 12 else hr % 12), mr,
          (if hr < 12 then Period.am else Period.pm), ?_, ?_, ?_, h.symm⟩
        · split_ifs <;> omega
        · split_ifs <;> omega
        · omega
  | none =>
      simp only [h24] at h
      cases h12m : match12 ((pyStrip s.toList).map pyUpperChar) with
      | none =>
          simp only [h12m] at h
          cases h
      | some tr =>
          obtain ⟨hh, mm, pp⟩ := tr
          simp only [h12m] at h
          split at h
          · cases h
          · rename_i hrange
            rw [Except.ok.injEq] at h
            refine ⟨(if hh = 0 then 12 else hh), mm, pp.getD Period.pm, ?_, ?_, ?_, h.symm⟩
            · split_ifs <;> omega
            · split_ifs <;> omega
            · omega

/-- Claim C8: `standardize_time_format` is idempotent: applying it to any
of its own successful outputs returns that output unchanged. -/
theorem standardize_time_format_idempotent (s out : String)
    (h : standardize_time_format s = .ok out) :
    standardize_time_format out = .ok out := by
  obtain ⟨hh, mm, p, h1, h12, hm, rfl⟩ := standardize_time_ok_shape h
  have hb := fmtTime_fixed hh (by omega) mm (by omega) h1
  cases p
  · exact hb.1
  · exact hb.2

theorem standardize_time_format_idempotent_witness :
    standardize_time_format "05:00 PM" = .ok "05:00 PM" :=
  standardize_time_format_idempotent "5pm" "05:00 PM" (by decide)

lemma overlapsB_symm (a b : TimeSlot) : a.overlapsB b = b.overlapsB a := by
  unfold TimeSlot.overlapsB
  rw [Bool.and_comm]

lemma overlapsB_eq_false_iff (a b : TimeSlot) :
    a.overlapsB b = false ↔ (b.endTime ≤ a.startTime ∨ a.endTime ≤ b.startTime) := by
  unfold TimeSlot.overlapsB
  rw [Bool.and_eq_false_iff]
  simp [not_lt]

lemma runAdds_pairwise (adds : List TimeSlot) :
    (runAdds adds).Pairwise (fun a b => a.overlapsB b = false) := by
  have h : ∀ (l st : List TimeSlot), st.Pairwise (fun a b => a.overlapsB b = false) →
      (l.foldl (fun st s => (addTimeSlot st s).2) st).Pairwise
        (fun a b => a.overlapsB b = false) := by
    intro l
    induction l with
    | nil => intro st hst; exact hst
    | cons s rest ih =>
        intro st hst
        rw [List.foldl_cons]
        apply ih
        unfold addTimeSlot
        split_ifs with hov
        · exact hst
        · rw [List.pairwise_append]
          refine ⟨hst, List.pairwise_singleton _ _, ?_⟩
          intro a ha b hb
          rw [List.mem_singleton] at hb
          subst hb
          rw [List.any_eq_true] at hov
          push_neg at hov
          have := hov a ha
          rw [overlapsB_symm]
          simpa using this
  exact h adds [] (List.Pairwise.nil)

lemma mem_runAdds {x : TimeSlot} {adds : List TimeSlot} (hx : x ∈ runAdds adds) : x ∈ adds := by
  have h : ∀ (l st : List TimeSlot), x ∈ l.foldl (fun st s => (addTimeSlot st s).2) st →
      x ∈ st ∨ x ∈ l := by
    intro l
    induction l with
    | nil => intro st hst; exact Or.inl hst
    | cons s rest ih =>
        intro st hst
        rw [List.foldl_cons] at hst
        rcases ih _ hst with h1 | h1
        · unfold addTimeSlot at h1
          split_ifs at h1
          · exact Or.inl h1
          · rcases List.mem_append.mp h1 with h2 | h2
            · exact Or.inl h2
            · rw [List.mem_singleton] at h2
              subst h2
              exact Or.inr (List.mem_cons_self _ _)
        · exact Or.inr (List.mem_cons_of_mem _ h1)
  rcases h adds [] hx with h1 | h1
  · cases h1
  · exact h1

lemma mem_insertByStart {y x : TimeSlot} {l : List TimeSlot} :
    y ∈ insertByStart x l ↔ y = x ∨ y ∈ l := by
  induction l with
  | nil => simp [insertByStart]
  | cons t ts ih =>
      unfold insertByStart
      split_ifs with h <;> (simp only [List.mem_cons, ih]; try tauto)

lemma insertByStart_perm (x : TimeSlot) (l : List TimeSlot) :
    List.Perm (insertByStart x l) (x :: l) := by
  induction l with
  | nil => exact List.Perm.refl _
  | cons t ts ih =>
      unfold insertByStart
      split_ifs with h
      · exact (ih.cons t).trans (List.Perm.swap x t ts)
      · exact List.Perm.refl _

lemma sortSlots_perm (l : List TimeSlot) : List.Perm (sortSlots l) l := by
  have h : ∀ (xs acc : List TimeSlot),
      List.Perm (xs.foldl (fun acc x => insertByStart x acc) acc) (acc ++ xs) := by
    intro xs
    induction xs with
    | nil => intro acc; simp
    | cons x rest ih =>
        intro acc
        rw [List.foldl_cons]
        refine (ih _).trans ?_
        refine ((insertByStart_perm x acc).append_right rest).trans ?_
        exact List.perm_middle.symm
  simpa [sortSlots] using h l []

lemma insertByStart_sorted {x : TimeSlot} {l : List TimeSlot}
    (hl : l.Pairwise (fun a b => a.startTime ≤ b.startTime)) :
    (insertByStart x l).Pairwise (fun a b => a.startTime ≤ b.startTime) := by
  induction l with
  | nil => simp [insertByStart]
  | cons t ts ih =>
      rw [List.pairwise_cons] at hl
      obtain ⟨ht, hts⟩ := hl
      unfold insertByStart
      split_ifs with h
      · rw [List.pairwise_cons]
        refine ⟨?_, ih hts⟩
        intro b hb
        rcases mem_insertByStart.mp hb with rfl | hb2
        · exact h
        · exact ht b hb2
      · rw [List.pairwise_cons]
        refine ⟨?_, List.Pairwise.cons ht hts⟩
        intro b hb
        rcases List.mem_cons.mp hb with rfl | hb2
        · omega
        · have := ht b hb2
          omega

lemma sortSlots_sorted (l : List TimeSlot) :
    (sortSlots l).Pairwise (fun a b => a.startTime ≤ b.startTime) := by
  have h : ∀ (xs acc : List TimeSlot),
      acc.Pairwise (fun a b => a.startTime ≤ b.startTime) →
      (xs.foldl (fun acc x => insertByStart x acc) acc).Pairwise
        (fun a b => a.startTime ≤ b.startTime) := by
    intro xs
    induction xs with
    | nil => intro acc hacc; exact hacc
    | cons x rest ih =>
        intro acc hacc
        rw [List.foldl_cons]
        exact ih _ (insertByStart_sorted hacc)
  exact h l [] List.Pairwise.nil

lemma sorted_disjoint_sep {l : List TimeSlot}
    (hs : l.Pairwise (fun a b => a.startTime ≤ b.startTime))
    (hd : l.Pairwise (fun a b => a.overlapsB b = false))
    (hwf : ∀ x ∈ l, x.startTime < x.endTime) :
    l.Pairwise (fun a b => a.endTime ≤ b.startTime) := by
  induction l with
  | nil => exact List.Pairwise.nil
  | cons a rest ih =>
      rw [List.pairwise_cons] at hs hd ⊢
      obtain ⟨ha1, hs2⟩ := hs
      obtain ⟨ha2, hd2⟩ := hd
      refine ⟨?_, ih hs2 hd2 (fun x hx => hwf x (List.mem_cons_of_mem _ hx))⟩
      intro b hb
      have h1 := ha1 b hb
      have h2 := (overlapsB_eq_false_iff _ _).mp (ha2 b hb)
      have h3 := hwf b (List.mem_cons_of_mem _ hb)
      omega

lemma sep_last_end {a : TimeSlot} {rest : List TimeSlot}
    (hsep : (a :: rest).Pairwise (fun a b => a.endTime ≤ b.startTime))
    (hwf : ∀ x ∈ a :: rest, x.startTime < x.endTime) :
    ∀ s ∈ a :: rest, s.endTime ≤ (lastSlot a rest).endTime := by
  induction rest generalizing a with
  | nil =>
      intro s hs
      rw [List.mem_singleton] at hs
      subst hs
      exact le_refl _
  | cons b bs ih =>
      intro s hs
      have hsep2 : (b :: bs).Pairwise (fun a b => a.endTime ≤ b.startTime) :=
        List.Pairwise.of_cons hsep
      have hwf2 : ∀ x ∈ b :: bs, x.startTime < x.endTime :=
        fun x hx => hwf x (List.mem_cons_of_mem _ hx)
      show s.endTime ≤ (lastSlot b bs).endTime
      rcases List.mem_cons.mp hs with rfl | hs2
      · have hab : s.endTime ≤ b.startTime :=
          (List.pairwise_cons.mp hsep).1 b (List.mem_cons_self _ _)
        have hb := ih hsep2 hwf2 b (List.mem_cons_self _ _)
        have hwfb : b.startTime < b.endTime := hwf2 b (List.mem_cons_self _ _)
        omega
      · exact ih hsep2 hwf2 s hs2

lemma scanGaps_sound {now dur : Int} {minT maxT : Option Int} :
    ∀ {l : List TimeSlot} {g : Int},
      l.Pairwise (fun a b => a.endTime ≤ b.startTime) →
      (∀ x ∈ l, x.startTime < x.endTime) →
      scanGaps now dur minT maxT l = some g →
      now ≤ g ∧ (∃ c ∈ l, g = c.endTime) ∧
        ∀ s ∈ l, s.endTime ≤ g ∨ g + dur ≤ s.startTime := by
  intro l
  induction l with
  | nil => intro g _ _ h; cases h
  | cons a rest ih =>
      intro g hsep hwf h
      cases rest with
      | nil => cases h
      | cons b bs =>
          unfold scanGaps at h
          dsimp only at h
          split_ifs at h with hc
          · rw [Option.some.injEq] at h
            subst h
            simp only [Bool.and_eq_true, decide_eq_true_eq] at hc
            obtain ⟨⟨⟨hnow, hdur⟩, hmin⟩, hmax⟩ := hc
            refine ⟨hnow, ⟨a, List.mem_cons_self _ _, rfl⟩, ?_⟩
            intro s hs
            rcases List.mem_cons.mp hs with rfl | hs2
            · exact Or.inl (le_refl _)
            · rcases List.mem_cons.mp hs2 with rfl | hs3
              · right; omega
              · right
                have hbs : b.endTime ≤ s.startTime :=
                  (List.pairwise_cons.mp (List.Pairwise.of_cons hsep)).1 s hs3
                have hwfb : b.startTime < b.endTime := hwf b (by simp)
                omega
          · obtain ⟨hg, ⟨c, hcmem, hceq⟩, hall⟩ := ih (List.Pairwise.of_cons hsep)
              (fun x hx => hwf x (List.mem_cons_of_mem _ hx)) h
            refine ⟨hg, ⟨c, List.mem_cons_of_mem _ hcmem, hceq⟩, ?_⟩
            intro s hs
            rcases List.mem_cons.mp hs with rfl | hs2
            · left
              have hac : s.endTime ≤ c.startTime :=
                (List.pairwise_cons.mp hsep).1 c hcmem
              have hwfc : c.startTime < c.endTime :=
                hwf c (List.mem_cons_of_mem _ hcmem)
              omega
            · exact hall s hs2

lemma slotFallback_ge (now : Int) (minT : Option Int) : now ≤ slotFallback now minT := by
  unfold slotFallback
  cases minT with
  | none => exact le_refl _
  | some m =>
      dsimp only
      split_ifs <;> omega

lemma afterPreferredSlot_safe (now dur : Int) (minT maxT : Option Int) (a : TimeSlot)
    (rest : List TimeSlot)
    (hsep : (a :: rest).Pairwise (fun a b => a.endTime ≤ b.startTime))
    (hwf : ∀ x ∈ a :: rest, x.startTime < x.endTime) :
    now ≤ afterPreferredSlot now dur minT maxT a rest ∧
    (maxT = none → ∀ s ∈ a :: rest,
      TimeSlot.overlapsB
        ⟨afterPreferredSlot now dur minT maxT a rest,
         afterPreferredSlot now dur minT maxT a rest + dur, none⟩ s = false) := by
  unfold afterPreferredSlot
  cases hscan : scanGaps now dur minT maxT (a :: rest) with
  | some g =>
      obtain ⟨hg, _, hall⟩ := scanGaps_sound hsep hwf hscan
      refine ⟨hg, fun _ s hs => ?_⟩
      rw [overlapsB_eq_false_iff]
      dsimp only
      exact hall s hs
  | none =>
      dsimp only
      split_ifs with hc
      · simp only [Bool.and_eq_true, decide_eq_true_eq] at hc
        refine ⟨hc.1, fun _ s hs => ?_⟩
        rw [overlapsB_eq_false_iff]
        dsimp only
        exact Or.inl (sep_last_end hsep hwf s hs)
      · refine ⟨slotFallback_ge now minT, fun hmax s hs => ?_⟩
        subst hmax
        have hlast : (lastSlot a rest).endTime < now := by
          by_contra hn
          push_neg at hn
          exact hc (by simp [maxOkB, hn])
        have hsend := sep_last_end hsep hwf s hs
        rw [overlapsB_eq_false_iff]
        dsimp only
        left
        have := slotFallback_ge now minT
        omega

/-- Claim C1 (amended): for every sequence of `add_time_slot` calls and
every `find_available_slot` call, the returned start is never earlier than
the current time; and provided no `max_time` bound is passed and every
added interval has start < end, the returned interval
[start, start + duration] never overlaps an interval previously recorded
by `add_time_slot` for that date.  (The unamended overlap guarantee fails
when a `max_time` bound forces the final fallback; see the
counterexample.) -/
theorem findAvailableSlot_safety (adds : List TimeSlot) (now dur : Int)
    (preferred minT maxT : Option Int)
    (hwf : ∀ s ∈ adds, s.startTime < s.endTime) :
    now ≤ findAvailableSlot now dur (runAdds adds) preferred minT maxT ∧
    (maxT = none → ∀ s ∈ runAdds adds,
      TimeSlot.overlapsB
        ⟨findAvailableSlot now dur (runAdds adds) preferred minT maxT,
         findAvailableSlot now dur (runAdds adds) preferred minT maxT + dur, none⟩ s = false) := by
  have hperm := sortSlots_perm (runAdds adds)
  have hpair0 := runAdds_pairwise adds
  have hwf0 : ∀ x ∈ runAdds adds, x.startTime < x.endTime :=
    fun x hx => hwf x (mem_runAdds hx)
  unfold findAvailableSlot
  cases hsort : sortSlots (runAdds adds) with
  | nil =>
      rw [hsort] at hperm
      have hnil : runAdds adds = [] := hperm.symm.eq_nil
      constructor
      · cases preferred with
        | none => exact slotFallback_ge now minT
        | some p =>
            dsimp only
            split_ifs with hcond
            · simp only [Bool.and_eq_true, decide_eq_true_eq] at hcond
              exact hcond.1.1
            · exact slotFallback_ge now minT
      · intro _ s hs
        rw [hnil] at hs
        cases hs
  | cons a rest =>
      rw [hsort] at hperm
      have hmem : ∀ {s : TimeSlot}, s ∈ runAdds adds → s ∈ a :: rest :=
        fun {s} hs => hperm.mem_iff.mpr hs
      have hsym : ∀ {x y : TimeSlot}, x.overlapsB y = false → y.overlapsB x = false := by
        intro x y h
        rw [overlapsB_symm]
        exact h
      have hpair : (a :: rest).Pairwise (fun x y => x.overlapsB y = false) :=
        (List.Perm.pairwise_iff hsym hperm).mpr hpair0
      have hsorted : (a :: rest).Pairwise (fun x y => x.startTime ≤ y.startTime) := by
        have h := sortSlots_sorted (runAdds adds)
        rw [hsort] at h
        exact h
      have hwf1 : ∀ x ∈ a :: rest, x.startTime < x.endTime :=
        fun x hx => hwf0 x (hperm.mem_iff.mp hx)
      have hsep := sorted_disjoint_sep hsorted hpair hwf1
      have hAP := afterPreferredSlot_safe now dur minT maxT a rest hsep hwf1
      cases preferred with
      | none => exact ⟨hAP.1, fun hmax s hs => hAP.2 hmax s (hmem hs)⟩
      | some p =>
          dsimp only
          split_ifs with hcond
          · simp only [Bool.and_eq_true, decide_eq_true_eq, List.all_eq_true] at hcond
            obtain ⟨⟨⟨hn, _⟩, _⟩, hall⟩ := hcond
            refine ⟨hn, fun _ s hs => ?_⟩
            have h2 := hall s (hmem hs)
            simpa using h2
          · exact ⟨hAP.1, fun hmax s hs => hAP.2 hmax s (hmem hs)⟩

theorem findAvailableSlot_safety_witness :
    (0 : Int) ≤ findAvailableSlot 0 30 (runAdds [⟨10, 60, none⟩]) (some 100) none none ∧
    ((none : Option Int) = none → ∀ s ∈ runAdds [⟨10, 60, none⟩],
      TimeSlot.overlapsB
        ⟨findAvailableSlot 0 30 (runAdds [⟨10, 60, none⟩]) (some 100) none none,
         findAvailableSlot 0 30 (runAdds [⟨10, 60, none⟩]) (some 100) none none + 30,
         none⟩ s = false) :=
  findAvailableSlot_safety [⟨10, 60, none⟩] 0 30 (some 100) none none (by decide)

/-- Claim C1 counterexample: with the single previously added interval
[10, 60], duration 30 and `max_time` 70, `find_available_slot` at current
time 0 falls back to returning 0, and the interval [0, 30] overlaps the
previously added [10, 60]. -/
theorem findAvailableSlot_overlap_counterexample :
    findAvailableSlot 0 30 (runAdds [⟨10, 60, none⟩]) none none (some 70) = 0 ∧
    (⟨10, 60, none⟩ : TimeSlot) ∈ runAdds [⟨10, 60, none⟩] ∧
    (∀ s ∈ runAdds [⟨10, 60, none⟩], s.startTime < s.endTime) ∧
    TimeSlot.overlapsB ⟨0, 0 + 30, none⟩ ⟨10, 60, none⟩ = true := by
  refine ⟨by decide, by decide, by decide, by decide⟩
